import Mathlib

/-!
# Verification of the vekotin binary-decoding core

A shallow embedding of the repository's bit-stream reader (`fiddling`),
canonical Huffman decoder, DEFLATE helpers, zlib container check and PNG
filter reversal, with theorems settling the specification's claims.

Machine integers are modelled as `Nat` with explicit `% 2^w` where overflow
matters; fallible Rust code (`io::Result`, `anyhow::Result`) is modelled with
explicit result types whose `err` constructor covers any `Err` return and
whose `panicked` constructor covers `assert!`/`unwrap` panics.
-/

namespace Vekotin

set_option maxRecDepth 16000

/-! ## fiddling (src/fiddling/src/lib.rs) -/

/-- `reverse_bits`: reverse the bit order of a byte (three masked swap steps,
exactly as in the source). -/
def reverse_bits (b : Nat) : Nat :=
  let b1 := ((b &&& 0b11110000) >>> 4) ||| ((b &&& 0b00001111) <<< 4)
  let b2 := ((b1 &&& 0b11001100) >>> 2) ||| ((b1 &&& 0b00110011) <<< 2)
  ((b2 &&& 0b10101010) >>> 1) ||| ((b2 &&& 0b01010101) <<< 1)

/-- The `FIRST_N_BITS` mask table from the source. -/
def FIRST_N_BITS : List Nat :=
  [0b00000000, 0b00000001, 0b00000011, 0b00000111, 0b00001111, 0b00011111,
   0b00111111, 0b01111111, 0b11111111]

/-- `first_n_bits(byte, n)`: the `n` least significant bits of `byte`. -/
def first_n_bits (byte n : Nat) : Nat :=
  byte &&& (FIRST_N_BITS.getD (min n 8) 0)

/-- `last_n_bits(byte, n)`: the `n` most significant bits of `byte`. -/
def last_n_bits (byte n : Nat) : Nat :=
  if 8 ≤ n then byte
  else if n = 0 then 0
  else byte >>> (8 - n)

/-- `BitOrder` from the source. -/
inductive BitOrder
  | MsbFirst
  | LsbFirst
deriving DecidableEq

/-- The `while n > 0` loop of `n_bits_by_index`, accumulating whole bytes
(possibly truncating the final one).  `n_bits` is the original requested
count (used by the LSB-first shift), `n` the remaining count.
The recursion is structural on a fuel equal to the remaining bit count
(each iteration consumes `min n 8 ≥ 1` bits, so the fuel never runs out
before `n` reaches 0; the fuel-0 case is unreachable from `n_bits_by_index`). -/
def nBitsLoop (bytes : List Nat) (bit_order : BitOrder) (n_bits : Nat) :
    Nat → Nat → Nat → Nat → Nat
  | _, 0, _, acc => acc
  | 0, _, _, acc => acc
  | fuel + 1, n, byte_idx, acc =>
    let n_bits_read := min n 8
    let acc' :=
      if bit_order = BitOrder.MsbFirst then
        (acc <<< n_bits_read) |||
          last_n_bits (reverse_bits (bytes.getD byte_idx 0)) n_bits_read
      else
        acc + ((first_n_bits (bytes.getD byte_idx 0) n_bits_read) <<< (n_bits - n))
    nBitsLoop bytes bit_order n_bits fuel (n - n_bits_read) (byte_idx + 1) acc'

/-- `n_bits_by_index(bytes, n_bits, bit_idx, bit_order)`: extract `n_bits`
bits starting at absolute bit index `bit_idx`.  Within the relevant byte
range all indices are in bounds at every call site, so `getD _ 0` models the
Rust indexing faithfully (the buffer is a zero-initialised fixed array). -/
def n_bits_by_index (bytes : List Nat) (n_bits : Nat) (bit_idx : Nat)
    (bit_order : BitOrder) : Nat :=
  let byte_idx := bit_idx / 8
  let within_byte_idx := bit_idx % 8
  if within_byte_idx ≠ 0 then
    let last_n := 8 - within_byte_idx
    let n_bits_read := min last_n n_bits
    let read_bits :=
      first_n_bits (last_n_bits (bytes.getD byte_idx 0) last_n) n_bits
    let read_bits :=
      if bit_order = BitOrder.MsbFirst then
        last_n_bits (reverse_bits read_bits) n_bits_read
      else read_bits
    nBitsLoop bytes bit_order n_bits n_bits (n_bits - n_bits_read) (byte_idx + 1)
      read_bits
  else
    nBitsLoop bytes bit_order n_bits n_bits n_bits byte_idx 0

/-- The state of a `BitStream<R>`: the not-yet-loaded bytes of the inner
reader, the 5-byte lookahead buffer (`[u8; 5]`, zero-initialised), the
absolute read bit position and the number of loaded buffer bytes. -/
structure BitStream where
  inner : List Nat
  buf : List Nat
  read_bit_pos : Nat
  load_byte_pos : Nat
deriving DecidableEq

/-- Result of a fallible `BitStream` operation: `ok` carries the value and
the updated stream, `err` models any `Err` return (I/O error or `bail!`),
`panicked` models an `assert!`/index/`unwrap` panic. -/
inductive BRes (α : Type)
  | ok : α → BitStream → BRes α
  | err : BRes α
  | panicked : BRes α
deriving DecidableEq

/-- Sequencing of fallible stream operations. -/
def BRes.bind {α β : Type} : BRes α → (α → BitStream → BRes β) → BRes β
  | .ok a s, f => f a s
  | .err, _ => .err
  | .panicked, _ => .panicked

/-- The value delivered by a stream operation, if it succeeded. -/
def BRes.val? {α : Type} : BRes α → Option α
  | .ok a _ => some a
  | _ => none

/-- The read bit position after a stream operation, if it succeeded. -/
def BRes.pos? {α : Type} : BRes α → Option Nat
  | .ok _ s => some s.read_bit_pos
  | _ => none

/-- `BitStream::new`. -/
def BitStream.new (inner : List Nat) : BitStream :=
  ⟨inner, [0, 0, 0, 0, 0], 0, 0⟩

/-- `readable_bits`: loaded but unread bits.  (`Nat` subtraction truncates;
in every reachable state `read_bit_pos ≤ 8 * load_byte_pos`.) -/
def BitStream.readable_bits (s : BitStream) : Nat :=
  8 * s.load_byte_pos - s.read_bit_pos

/-- `loadable_bits`: free space at the end of the buffer, in bits. -/
def BitStream.loadable_bits (s : BitStream) : Nat :=
  8 * (s.buf.length - s.load_byte_pos)

/-- `load_bytes`: `read_exact` `n_bytes` bytes from the inner reader into
`buf[load_byte_pos..]`.  The source `assert!`s that they fit; a short inner
reader is an I/O error. -/
def BitStream.load_bytes (s : BitStream) (n_bytes : Nat) : BRes Unit :=
  if s.load_byte_pos + n_bytes ≤ s.buf.length then
    if n_bytes ≤ s.inner.length then
      .ok () { s with
        buf := s.buf.take s.load_byte_pos ++ s.inner.take n_bytes ++
               s.buf.drop (s.load_byte_pos + n_bytes),
        inner := s.inner.drop n_bytes,
        load_byte_pos := s.load_byte_pos + n_bytes }
    else .err
  else .panicked

/-- `rewind_buffer`: shift out fully consumed bytes so the read position
falls in byte 0.  Bytes past `load_byte_pos - read_byte_pos` keep their old
values, exactly as the source's in-place copy loop leaves them. -/
def BitStream.rewind_buffer (s : BitStream) : BitStream :=
  let read_byte_pos := s.read_bit_pos / 8
  if read_byte_pos = 0 then s
  else
    let buf' :=
      if read_byte_pos < s.load_byte_pos then
        (s.buf.drop read_byte_pos).take (s.load_byte_pos - read_byte_pos) ++
          s.buf.drop (s.load_byte_pos - read_byte_pos)
      else s.buf
    { s with
      buf := buf',
      read_bit_pos := s.read_bit_pos % 8,
      load_byte_pos := s.load_byte_pos - read_byte_pos }

/-- `ensure_readable_bits`. -/
def BitStream.ensure_readable_bits (s : BitStream) (n_bits : Nat) : BRes Unit :=
  if n_bits ≤ s.readable_bits then .ok () s
  else
    let bits_to_read := n_bits - s.readable_bits
    let s' := if s.loadable_bits < bits_to_read then s.rewind_buffer else s
    s'.load_bytes ((bits_to_read + 7) / 8)

/-- `peek_bits(n, bo)`: the source `assert!`s `n <= (buf.len() - 1) * 8`
before ensuring and extracting; violating it panics. -/
def BitStream.peek_bits (s : BitStream) (n : Nat) (bo : BitOrder) : BRes Nat :=
  if n ≤ (s.buf.length - 1) * 8 then
    (s.ensure_readable_bits n).bind fun _ s' =>
      .ok (n_bits_by_index s'.buf n s'.read_bit_pos bo) s'
  else .panicked

/-- `skip_bits(n)`: advance the read position (same `assert!` as `peek_bits`). -/
def BitStream.skip_bits (s : BitStream) (n : Nat) : BRes Unit :=
  if n ≤ (s.buf.length - 1) * 8 then
    .ok () { s with read_bit_pos := s.read_bit_pos + n }
  else .panicked

/-- `read_bits(n, bo)`: peek then skip. -/
def BitStream.read_bits (s : BitStream) (n : Nat) (bo : BitOrder) : BRes Nat :=
  (s.peek_bits n bo).bind fun v s' =>
    (s'.skip_bits n).bind fun _ s'' => .ok v s''

/-! ## Canonical Huffman alphabets
(src/src/compression/deflate/huffman.rs) -/

/-- `SymbolEntry<S>`: symbol, code bit-length and assigned canonical code. -/
structure SymbolEntry (S : Type) where
  symbol : S
  length : Nat
  code : Nat
deriving DecidableEq

/-- `HuffmanAlphabet<S>`. -/
structure HuffmanAlphabet (S : Type) where
  symbol_entries : List (SymbolEntry S)
  lut : List (Option Nat)
  max_lut_code : Nat
  max_code_length : Nat
deriving DecidableEq

/-- The per-symbol code-assignment pass of `assign_codes`: each entry with a
nonzero length takes `next_code[len]` as its code and bumps that counter. -/
def assignLoop {S : Type} (next_code : List Nat) :
    List (SymbolEntry S) → List (SymbolEntry S)
  | [] => []
  | e :: rest =>
    if e.length ≠ 0 then
      { e with code := next_code.getD e.length 0 } ::
        assignLoop (next_code.set e.length (next_code.getD e.length 0 + 1)) rest
    else
      e :: assignLoop next_code rest

/-- `assign_codes` (RFC 1951 §3.2.2): count lengths into `bl_count`, build
the `next_code` table with the shift-and-add recurrence, then assign codes
to the symbols in input order. -/
def assign_codes {S : Type} (code_lengths : List (S × Nat))
    (max_code_length : Nat) : List (SymbolEntry S) :=
  let bl_count0 :=
    code_lengths.foldl (fun acc p => acc.set p.2 (acc.getD p.2 0 + 1))
      (List.replicate (max_code_length + 1) 0)
  let bl_count := bl_count0.set 0 0
  let next_code :=
    ((List.range bl_count.length).map (· + 1)).foldl
      (fun (p : List Nat × Nat) bits =>
        let code := (p.2 + bl_count.getD (bits - 1) 0) <<< 1
        (p.1.set bits code, code))
      (List.replicate (bl_count.length + 1) 0, 0)
  let tree : List (SymbolEntry S) :=
    code_lengths.map fun p => ⟨p.1, p.2, 0⟩
  assignLoop next_code.1 tree

/-- Fill `count` lookup-table slots starting at `start` with `some v`
(`List.set` past the end is a no-op, which models the source's
`take(stop)` clamping).  Called with `count = stop - start` this is the
source's fill loop over `[start, stop)`. -/
def lutFillN : List (Option Nat) → Nat → Nat → Nat → List (Option Nat)
  | lut, 0, _, _ => lut
  | lut, count + 1, start, v => lutFillN (lut.set start (some v)) count (start + 1) v

/-- `from_code_lengths`: `none` models a panic — the `unwrap` on the
maximum of an empty iterator (no nonzero length at all) or the
`assert!(max_code_length < 16)`. -/
def from_code_lengths {S : Type} (code_lengths : List (S × Nat)) :
    Option (HuffmanAlphabet S) :=
  match ((code_lengths.filter fun p => decide (0 < p.2)).map (·.2)).max? with
  | none => none
  | some max_code_length =>
    if max_code_length < 16 then
      let non_zero_code_lengths := code_lengths.filter fun p => decide (0 < p.2)
      let symbol_entries := assign_codes non_zero_code_lengths max_code_length
      let lut0 : List (Option Nat) := List.replicate (2 ^ max_code_length) none
      let lut := symbol_entries.enum.foldl
        (fun lut p =>
          let shift_by := max_code_length - p.2.length
          let lut_segment_start := p.2.code <<< shift_by
          let lut_segment_end := (p.2.code + 1) <<< shift_by
          lutFillN lut (lut_segment_end - lut_segment_start) lut_segment_start p.1)
        lut0
      some ⟨symbol_entries, lut, (1 <<< max_code_length) - 1, max_code_length⟩
    else none

/-- `read_next`: peek `max_code_length` bits MSB-first, look up the table
(an empty slot is a decode error), then consume the matched entry's true
bit length and return its symbol.  Out-of-range indexing — unreachable by
construction — is a panic. -/
def HuffmanAlphabet.read_next {S : Type} (a : HuffmanAlphabet S)
    (s : BitStream) : BRes S :=
  (s.peek_bits a.max_code_length .MsbFirst).bind fun code s' =>
    if code ≤ a.max_lut_code then
      match a.lut[code]? with
      | none => .panicked
      | some none => .err
      | some (some tree_idx) =>
        match a.symbol_entries[tree_idx]? with
        | none => .panicked
        | some entry =>
          (s'.skip_bits entry.length).bind fun _ s'' => .ok entry.symbol s''
    else .panicked

/-- `read_next` iterated `n` times, collecting the decoded symbols. -/
def readNextTimes {S : Type} (a : HuffmanAlphabet S) :
    Nat → BitStream → BRes (List S)
  | 0, s => .ok [] s
  | n + 1, s =>
    (a.read_next s).bind fun x s' =>
      (readNextTimes a n s').bind fun xs s'' => .ok (x :: xs) s''

/-! ## DEFLATE symbols (src/src/compression/deflate/huffman.rs) -/

/-- `DeflateSymbol`. -/
inductive DeflateSymbol
  | Literal : Nat → DeflateSymbol
  | LengthAndDistance : Nat → Nat → DeflateSymbol
  | EndOfData : DeflateSymbol
deriving DecidableEq

/-- `LENGTH_EXTRA_BITS`, indexed by `length_symbol - 257` (grouped as the
source's per-row comments group them: symbols 257–264, 265–268, …, 285). -/
def LENGTH_EXTRA_BITS : List Nat :=
  [0, 0, 0, 0, 0, 0, 0, 0] ++
    [1, 1, 1, 1] ++
    [2, 2, 2, 2] ++
    [3, 3, 3, 3] ++
    [4, 4, 4, 4] ++
    [5, 5, 5, 5] ++
    [0]

/-- `BASE_LENGTH`, indexed by `length_symbol - 257` (grouped by extra-bit
count as in the source's comments). -/
def BASE_LENGTH : List Nat :=
  [3, 4, 5, 6, 7, 8, 9, 10] ++
    [11, 13, 15, 17] ++
    [19, 23, 27, 31] ++
    [35, 43, 51, 59] ++
    [67, 83, 99, 115] ++
    [131, 163, 195, 227] ++
    [258]

/-- `read_length` (final decoder, huffman.rs): the length extra bits are
read with `LsbFirst`.  Out-of-range table indexing is a panic. -/
def read_length (s : BitStream) (length_symbol : Nat) : BRes Nat :=
  let lut_idx := length_symbol - 257
  match LENGTH_EXTRA_BITS[lut_idx]?, BASE_LENGTH[lut_idx]? with
  | some extra_bits, some base_length =>
    (s.read_bits extra_bits .LsbFirst).bind fun v s' => .ok (base_length + v) s'
  | _, _ => .panicked

/-- The superseded draft decoder's length read
(src/src/compression/deflate/dynamic_huffman.rs, `read_length_and_distance`):
identical tables, but the extra bits are read with `MSBFirst`. -/
def read_length_draft (s : BitStream) (length_symbol : Nat) : BRes Nat :=
  let lut_idx := length_symbol - 257
  match LENGTH_EXTRA_BITS[lut_idx]?, BASE_LENGTH[lut_idx]? with
  | some extra_bits, some base_length =>
    (s.read_bits extra_bits .MsbFirst).bind fun v s' => .ok (base_length + v) s'
  | _, _ => .panicked

/-- `DISTANCE_EXTRA_BITS` (grouped by extra-bit count). -/
def DISTANCE_EXTRA_BITS : List Nat :=
  [0, 0, 0, 0] ++ [1, 1] ++ [2, 2] ++ [3, 3] ++ [4, 4] ++ [5, 5] ++
    [6, 6] ++ [7, 7] ++ [8, 8] ++ [9, 9] ++ [10, 10] ++ [11, 11] ++
    [12, 12] ++ [13, 13]

/-- `BASE_DISTANCE` (grouped by extra-bit count, as the source's comments
group the rows). -/
def BASE_DISTANCE : List Nat :=
  [1, 2, 3, 4] ++
    [5, 7] ++
    [9, 13] ++
    [17, 25] ++
    [33, 49] ++
    [65, 97] ++
    [129, 193] ++
    [257, 385] ++
    [513, 769] ++
    [1025, 1537] ++
    [2049, 3073] ++
    [4097, 6145] ++
    [8193, 12289] ++
    [16385, 24577]

/-- `read_distance`. -/
def read_distance (s : BitStream) (distance_alphabet : HuffmanAlphabet Nat) :
    BRes Nat :=
  (distance_alphabet.read_next s).bind fun raw_distance s' =>
    match DISTANCE_EXTRA_BITS[raw_distance]?, BASE_DISTANCE[raw_distance]? with
    | some extra_bits, some base_distance =>
      (s'.read_bits extra_bits .LsbFirst).bind fun v s'' =>
        .ok (base_distance + v) s''
    | _, _ => .panicked

/-- `read_length_and_distance`: the length (with its extra bits) is read
first and completely, then the distance symbol is decoded from the advanced
stream. -/
def read_length_and_distance (s : BitStream) (length_symbol : Nat)
    (distance_alphabet : HuffmanAlphabet Nat) : BRes DeflateSymbol :=
  (read_length s length_symbol).bind fun length s' =>
    (read_distance s' distance_alphabet).bind fun distance s'' =>
      .ok (.LengthAndDistance length distance) s''

/-- `read_deflate_symbol`. -/
def read_deflate_symbol (s : BitStream) (literal_alphabet : HuffmanAlphabet Nat)
    (distance_alphabet : HuffmanAlphabet Nat) : BRes DeflateSymbol :=
  (literal_alphabet.read_next s).bind fun raw_symbol s' =>
    if raw_symbol ≤ 255 then .ok (.Literal raw_symbol) s'
    else if raw_symbol = 256 then .ok .EndOfData s'
    else if raw_symbol ≤ 285 then
      read_length_and_distance s' raw_symbol distance_alphabet
    else .err

/-- The back-reference copy loop of `copy_huffman_block`:
`for idx in copy_start..copy_end { out_buf.push(out_buf[idx]); }` —
one byte at a time, reading through bytes the loop itself just wrote.
`none` models the panic of an out-of-bounds `out_buf[idx]`.
The recursion is structural on `count`, the number of loop iterations left
(`copy_end - idx`, i.e. the back-reference length at the outer call). -/
def pushCopy : List Nat → Nat → Nat → Option (List Nat)
  | out_buf, _, 0 => some out_buf
  | out_buf, idx, count + 1 =>
    if idx < out_buf.length then
      pushCopy (out_buf ++ [out_buf.getD idx 0]) (idx + 1) count
    else none

/-- The body of `copy_huffman_block`'s decode loop for one `DeflateSymbol`:
append a literal, expand a back-reference (the `assert!` that
`distance <= out_buf.len()` panics — modelled as `none` — otherwise), or
signal end of data.  The `Bool` is true when the loop breaks. -/
def copy_huffman_block_step (out_buf : List Nat) :
    DeflateSymbol → Option (List Nat × Bool)
  | .Literal value => some (out_buf ++ [value], false)
  | .LengthAndDistance length distance =>
    let current_idx := out_buf.length
    if distance ≤ current_idx then
      let copy_start := current_idx - distance
      let copy_end := copy_start + length
      (pushCopy out_buf copy_start (copy_end - copy_start)).map fun buf =>
        (buf, false)
    else none
  | .EndOfData => some (out_buf, true)

/-! ## Dynamic-Huffman code-length extraction
(src/src/compression/deflate/huffman.rs, `extract_alphabet`) -/

/-- `ExtractAction`. -/
inductive ExtractAction
  | CodeLength : Nat → ExtractAction
  | CopyLastLength : Nat → ExtractAction
  | RepeatZero : Nat → ExtractAction
deriving DecidableEq

/-- `ExtractAction::from_bit_stream`: decode one code-length symbol and its
extra bits. -/
def ExtractAction.from_bit_stream (s : BitStream)
    (alphabet : HuffmanAlphabet Nat) : BRes ExtractAction :=
  (alphabet.read_next s).bind fun sym s' =>
    if sym ≤ 15 then .ok (.CodeLength sym) s'
    else if sym = 16 then
      (s'.read_bits 2 .LsbFirst).bind fun copy_times s'' =>
        .ok (.CopyLastLength (copy_times + 3)) s''
    else if sym = 17 then
      (s'.read_bits 3 .LsbFirst).bind fun zero_times s'' =>
        .ok (.RepeatZero (zero_times + 3)) s''
    else if sym = 18 then
      (s'.read_bits 7 .LsbFirst).bind fun zero_times s'' =>
        .ok (.RepeatZero (zero_times + 11)) s''
    else .err

/-- `copy_last_length`: repeat the last pushed length `times` more times
(an error when there is no last element). -/
def copy_last_length (times : Nat) (literal_code_lengths : List (Nat × Nat))
    (cl_symbol : Nat) : Option (List (Nat × Nat) × Nat) :=
  match literal_code_lengths.getLast? with
  | none => none
  | some (_, length) =>
    some (literal_code_lengths ++
            (List.range times).map (fun i => (cl_symbol + i, length)),
          cl_symbol + times)

/-- `repeat_zero`: push a single zero-length entry and advance the symbol
counter by `times`. -/
def repeat_zero (times : Nat) (literal_code_lengths : List (Nat × Nat))
    (cl_symbol : Nat) : List (Nat × Nat) × Nat :=
  (literal_code_lengths ++ [(cl_symbol, 0)], cl_symbol + times)

/-- Outcome of `extract_alphabet`: `ok` carries the built alphabet and the
stream, `err` any `bail!`/IO error, `panicked` a panic (including the one
inside the final `from_code_lengths`), `fuelOut` exhaustion of the loop
fuel — proved unreachable when the fuel is the declared alphabet size. -/
inductive ExtractRes
  | ok : HuffmanAlphabet Nat → BitStream → ExtractRes
  | err : ExtractRes
  | panicked : ExtractRes
  | fuelOut : ExtractRes
deriving DecidableEq

/-- The final `from_code_lengths` call of `extract_alphabet` (its panic —
the all-zero `unwrap` or the max-length assert — is `panicked`). -/
def extractFinish (literal_code_lengths : List (Nat × Nat)) (s : BitStream) :
    ExtractRes :=
  match from_code_lengths literal_code_lengths with
  | some alphabet => .ok alphabet s
  | none => .panicked

/-- One iteration body of the `while (cl_symbol as usize) < alphabet_size`
loop of `extract_alphabet`, continued through `k`. -/
def extractStep (cl_alphabet : HuffmanAlphabet Nat) (s : BitStream)
    (literal_code_lengths : List (Nat × Nat)) (cl_symbol : Nat)
    (k : BitStream → List (Nat × Nat) → Nat → ExtractRes) : ExtractRes :=
  match ExtractAction.from_bit_stream s cl_alphabet with
  | .err => .err
  | .panicked => .panicked
  | .ok action s' =>
    match action with
    | .CodeLength len =>
      k s' (literal_code_lengths ++ [(cl_symbol, len)]) (cl_symbol + 1)
    | .CopyLastLength times =>
      match copy_last_length times literal_code_lengths cl_symbol with
      | none => .err
      | some (lengths', cl_symbol') => k s' lengths' cl_symbol'
    | .RepeatZero times =>
      match repeat_zero times literal_code_lengths cl_symbol with
      | (lengths', cl_symbol') => k s' lengths' cl_symbol'

/-- The extraction loop with an explicit iteration budget `fuel`.
`cl_symbol` is a `Nat`; the source's `u16` cannot overflow at any call site
(the asserted bounds `hlit ≤ 286`, `hdist ≤ 32` keep it below `423`). -/
def extractLoop (cl_alphabet : HuffmanAlphabet Nat) (alphabet_size : Nat) :
    Nat → BitStream → List (Nat × Nat) → Nat → ExtractRes
  | 0, s, literal_code_lengths, cl_symbol =>
    if alphabet_size ≤ cl_symbol then extractFinish literal_code_lengths s
    else .fuelOut
  | fuel + 1, s, literal_code_lengths, cl_symbol =>
    if alphabet_size ≤ cl_symbol then extractFinish literal_code_lengths s
    else
      extractStep cl_alphabet s literal_code_lengths cl_symbol
        (extractLoop cl_alphabet alphabet_size fuel)

/-- `extract_alphabet`, with the loop budget set to the alphabet size (the
termination claim proves this budget is never exhausted). -/
def extract_alphabet (s : BitStream) (alphabet_size : Nat)
    (cl_alphabet : HuffmanAlphabet Nat) : ExtractRes :=
  extractLoop cl_alphabet alphabet_size alphabet_size s [] 0

/-- The number of symbol-counter steps an extract action contributes. -/
def ExtractAction.adds : ExtractAction → Nat
  | .CodeLength _ => 1
  | .CopyLastLength times => times
  | .RepeatZero times => times

/-! ## Zlib container (src/src/compression/zlib.rs) -/

/-- `CompressionMethod` and its `From<u8>`.  `u16::pow(2, cinfo + 8)` is
modelled with the release-mode wrapping semantics `% 2^16`. -/
inductive ZlibCompressionMethod
  | Deflate : Nat → ZlibCompressionMethod
  | Unknown : ZlibCompressionMethod
deriving DecidableEq

/-- `CompressionMethod::from(b)`. -/
def compression_method_from (b : Nat) : ZlibCompressionMethod :=
  let cm := b &&& 0b00001111
  let cinfo := b >>> 4
  if cm = 8 then .Deflate (2 ^ (cinfo + 8) % 2 ^ 16) else .Unknown

/-- `CompressionLevel`. -/
inductive CompressionLevel
  | Level1
  | Level2
  | Level3
  | Level4
deriving DecidableEq

/-- `Flags` (zlib FLG byte as parsed by the source). -/
structure ZlibFlags where
  preset_dictionary : Bool
  compression_level : CompressionLevel
deriving DecidableEq

/-- `Flags::from(b)`: the source computes
`preset_dictionary = (b & 0x08) == 5` and matches `b >> 6` for the level
(`none` models the `unreachable!` arm, impossible for byte inputs). -/
def flags_from (b : Nat) : Option ZlibFlags :=
  let preset_dictionary := decide (b &&& 0x08 = 5)
  match b >>> 6 with
  | 0 => some ⟨preset_dictionary, .Level1⟩
  | 1 => some ⟨preset_dictionary, .Level2⟩
  | 2 => some ⟨preset_dictionary, .Level3⟩
  | 3 => some ⟨preset_dictionary, .Level4⟩
  | _ => none

/-- `check_cmf_flg`. -/
def check_cmf_flg (cmf flg : Nat) : Bool :=
  decide ((256 * cmf + flg) % 31 = 0)

/-- `CompressionType` (zlib.rs copy). -/
inductive ZlibCompressionType
  | NoCompression
  | FixedHuffman
  | DynamicHuffman
  | Reserved
deriving DecidableEq

/-- `BlockHeader` (zlib.rs copy). -/
structure ZlibBlockHeader where
  is_final : Bool
  compression_type : ZlibCompressionType
deriving DecidableEq

/-- `read_block_header` (zlib.rs): a stub returning a constant final
no-compression header, exactly as in the source. -/
def zlib_read_block_header (_bit_idx : Nat) (_bytes : List Nat) :
    ZlibBlockHeader :=
  ⟨true, .NoCompression⟩

/-- Outcome of `zlib::decompress`.  `ok`/`err` carry the list of block
headers read before returning (instrumentation for the claim that a failed
header check aborts before any block decoding); `panicked` models the
out-of-bounds `bytes[0]`/`bytes[1]` on inputs shorter than two bytes. -/
inductive ZRes
  | ok : List ZlibBlockHeader → ZRes
  | err : List ZlibBlockHeader → ZRes
  | panicked : ZRes
deriving DecidableEq

/-- `zlib::decompress`: parse CMF and FLG, bail when
`(256*CMF + FLG) % 31 ≠ 0`, otherwise run the block loop (whose stubbed
header is always final, so it reads exactly one header and stops). -/
def zlib_decompress (bytes : List Nat) : ZRes :=
  match bytes with
  | b0 :: b1 :: _ =>
    let _compression_method := compression_method_from b0
    let _flags := flags_from b1
    if check_cmf_flg b0 b1 = false then .err []
    else
      let bit_idx := 16
      let block_header := zlib_read_block_header bit_idx bytes
      -- `block_header.is_final` is `true`, so the loop breaks after one pass
      .ok [block_header]
  | _ => .panicked

/-! ## PNG filter reversal (src/src/loader/png.rs) -/

/-- `FilterAlgorithm`. -/
inductive FilterAlgorithm
  | None
  | Sub
  | Up
  | Average
  | Paeth
deriving DecidableEq

/-- `FilterAlgorithm::try_from(b)`. -/
def filter_algorithm_from (b : Nat) : Option FilterAlgorithm :=
  match b with
  | 0 => some .None
  | 1 => some .Sub
  | 2 => some .Up
  | 3 => some .Average
  | 4 => some .Paeth
  | _ => none

/-- `paeth_predictor(a, b, c)`: predictor `p = a + b - c` in `i32`
arithmetic, then the candidate with the smallest absolute difference from
`p`, ties resolved by the `if` chain in the order `a`, `b`, `c`. -/
def paeth_predictor (a b c : Nat) : Nat :=
  let p : Int := (a : Int) + (b : Int) - (c : Int)
  let pa := (p - (a : Int)).natAbs
  let pb := (p - (b : Int)).natAbs
  let pc := (p - (c : Int)).natAbs
  if pa ≤ pb ∧ pa ≤ pc then a
  else if pb ≤ pc then b
  else c

/-- `raw`: the already-reconstructed byte of the current scanline at
(possibly negative) index `byte_idx`, 0 when out of range on the left.
(The source's `assert!(byte_idx < scanline_len)` holds at every call.) -/
def raw_fn (image : List Nat) (scanline_len scanline_idx : Nat)
    (byte_idx : Int) : Nat :=
  if byte_idx < 0 then 0
  else image.getD (scanline_len * scanline_idx + byte_idx.toNat) 0

/-- `prior`: the reconstructed byte of the prior scanline, 0 on the first
scanline or when the index is negative. -/
def prior_fn (image : List Nat) (scanline_len scanline_idx : Nat)
    (byte_idx : Int) : Nat :=
  if scanline_idx = 0 ∨ byte_idx < 0 then 0
  else image.getD (scanline_len * (scanline_idx - 1) + byte_idx.toNat) 0

/-- The `Sub` branch loop of `apply_filters`. -/
def sub_line (bpp scanline_len scanline_idx : Nat) :
    List Nat → Nat → List Nat → List Nat
  | [], _, image => image
  | byte :: rest, byte_idx, image =>
    let left := raw_fn image scanline_len scanline_idx
      ((byte_idx : Int) - (bpp : Int))
    let image_idx := scanline_len * scanline_idx + byte_idx
    sub_line bpp scanline_len scanline_idx rest (byte_idx + 1)
      (image.set image_idx ((byte + left) % 256))

/-- The `Up` branch loop of `apply_filters`. -/
def up_line (bpp scanline_len scanline_idx : Nat) :
    List Nat → Nat → List Nat → List Nat
  | [], _, image => image
  | byte :: rest, byte_idx, image =>
    let prior_byte := prior_fn image scanline_len scanline_idx (byte_idx : Int)
    let image_idx := scanline_len * scanline_idx + byte_idx
    up_line bpp scanline_len scanline_idx rest (byte_idx + 1)
      (image.set image_idx ((byte + prior_byte) % 256))

/-- The `Average` branch loop of `apply_filters`. -/
def avg_line (bpp scanline_len scanline_idx : Nat) :
    List Nat → Nat → List Nat → List Nat
  | [], _, image => image
  | byte :: rest, byte_idx, image =>
    let raw_byte := raw_fn image scanline_len scanline_idx
      ((byte_idx : Int) - (bpp : Int))
    let prior_byte := prior_fn image scanline_len scanline_idx (byte_idx : Int)
    let avg_byte := (raw_byte + prior_byte) / 2 % 256
    let image_idx := scanline_len * scanline_idx + byte_idx
    avg_line bpp scanline_len scanline_idx rest (byte_idx + 1)
      (image.set image_idx ((byte + avg_byte) % 256))

/-- The `Paeth` branch loop of `apply_filters`: `left`, `above` and
`above_left` are read from the partially reconstructed image, and
`recon = filt + paeth_predictor(...)` wrapping at 256. -/
def paeth_line (bpp scanline_len scanline_idx : Nat) :
    List Nat → Nat → List Nat → List Nat
  | [], _, image => image
  | byte :: rest, byte_idx, image =>
    let left := raw_fn image scanline_len scanline_idx
      ((byte_idx : Int) - (bpp : Int))
    let above := prior_fn image scanline_len scanline_idx (byte_idx : Int)
    let above_left := prior_fn image scanline_len scanline_idx
      ((byte_idx : Int) - (bpp : Int))
    let paeth := paeth_predictor left above above_left
    let image_idx := scanline_len * scanline_idx + byte_idx
    paeth_line bpp scanline_len scanline_idx rest (byte_idx + 1)
      (image.set image_idx ((byte + paeth) % 256))

/-- The catch-all (filter `None`) branch: `Write` for a mutable byte slice
copies `min(dst, src)` bytes, so this overwrites successive positions with
the given source bytes (`List.set` past the end is a no-op, matching the
`min` with the destination slice). -/
def write_bytes (image : List Nat) : Nat → List Nat → List Nat
  | _, [] => image
  | start, b :: rest => write_bytes (image.set start b) (start + 1) rest

/-- `decompressed_data.chunks(n)` for `n > 0` (the call site uses
`scanline_len + 1 ≥ 1`).  Structural on a fuel that is the list length at
the outer call: every iteration drops `n ≥ 1` elements, so the fuel-0 case
with a nonempty list is unreachable. -/
def chunksOf (n : Nat) : Nat → List Nat → List (List Nat)
  | _, [] => []
  | 0, _ => []
  | fuel + 1, x :: rest =>
    (x :: rest).take n :: chunksOf n fuel ((x :: rest).drop n)

/-- One `apply_filters` scanline: dispatch on the filter byte, run the
branch loop over `filter_and_scanline[1..]`.  The `None`/catch-all branch
writes `&scanline[1..]` — i.e. it drops one more leading byte, exactly as
the source does. -/
def apply_filters_scanline (bpp scanline_len scanline_idx : Nat)
    (filter_and_scanline : List Nat) (image : List Nat) :
    Option (List Nat) :=
  match filter_algorithm_from (filter_and_scanline.getD 0 0) with
  | none => none
  | some alg =>
    let scanline := filter_and_scanline.drop 1
    match alg with
    | .Sub => some (sub_line bpp scanline_len scanline_idx scanline 0 image)
    | .Up => some (up_line bpp scanline_len scanline_idx scanline 0 image)
    | .Average => some (avg_line bpp scanline_len scanline_idx scanline 0 image)
    | .Paeth => some (paeth_line bpp scanline_len scanline_idx scanline 0 image)
    | .None =>
      some (write_bytes image (scanline_len * scanline_idx) (scanline.drop 1))

/-- The scanline loop of `apply_filters` over enumerated chunks. -/
def apply_filters_loop (bpp scanline_len : Nat) :
    List (List Nat) → Nat → List Nat → Option (List Nat)
  | [], _, image => some image
  | chunk :: rest, scanline_idx, image =>
    match apply_filters_scanline bpp scanline_len scanline_idx chunk image with
    | none => none
    | some image' => apply_filters_loop bpp scanline_len rest (scanline_idx + 1) image'

/-- `apply_filters(ihdr, decompressed_data, image)`: `none` is the
`Err` return for an unknown filter-type byte. -/
def apply_filters (bpp width : Nat) (decompressed_data : List Nat)
    (image : List Nat) : Option (List Nat) :=
  let scanline_len := width * bpp
  apply_filters_loop bpp scanline_len
    (chunksOf (scanline_len + 1) decompressed_data.length decompressed_data)
    0 image

/-! ## Claim theorems -/

/-- The RFC 1951 §3.2.2 example code-length input. -/
def rfc_code_lengths : List (Char × Nat) :=
  [('A', 3), ('B', 3), ('C', 3), ('D', 3), ('E', 3), ('F', 2), ('G', 4), ('H', 4)]

/-- C1: building the alphabet from the RFC 1951 example lengths
`{A:3,B:3,C:3,D:3,E:3,F:2,G:4,H:4}` and calling `read_next` four times on
the bit stream `[0b11110111, 0b10111000]` — whose bits in stream order are
`1110 1111 0001 1101`, i.e. the claim's MSB-first code sequence
`1110 1111 00 01(1)` — yields exactly the symbols G, H, F, B. -/
theorem c1_canonical_code_determinism :
    (from_code_lengths rfc_code_lengths).map
      (fun a => (readNextTimes a 4 (BitStream.new [0b11110111, 0b10111000])).val?) =
      some (some ['G', 'H', 'F', 'B']) := by
  decide

/-- C10: `from_code_lengths` panics (`unwrap` of the maximum of an empty
iterator) instead of returning an error whenever no code length is
nonzero — in particular for an empty input list. -/
theorem c10_from_code_lengths_all_zero_panics {S : Type}
    (code_lengths : List (S × Nat)) (h : ∀ p ∈ code_lengths, p.2 = 0) :
    from_code_lengths code_lengths = none := by
  have hf : code_lengths.filter (fun p => decide (0 < p.2)) = [] := by
    rw [List.filter_eq_nil_iff]
    intro a ha
    simp [h a ha]
  unfold from_code_lengths
  rw [hf]
  rfl

/-- C10 witness: the empty list and an all-zero list both panic. -/
theorem c10_witness :
    from_code_lengths ([] : List (Nat × Nat)) = none ∧
      from_code_lengths [((3 : Nat), 0)] = none :=
  ⟨c10_from_code_lengths_all_zero_panics [] (by simp),
   c10_from_code_lengths_all_zero_panics [(3, 0)] (by simp)⟩

/-- C5: `read_bits(n, order)` does NOT support every `n ≤ 64`: for any
`n ≥ 33` the `assert!(n <= (buf.len() - 1) * 8)` in `peek_bits` panics,
because `buf` is declared `[u8; 5]` even though its own comment says it
holds 64 bits plus one spare byte.  Reads of at most 32 bits do return the
next bits (second conjunct: on an all-ones source every `m ≤ 32` yields
`2^m - 1`). -/
theorem c5_read_bits_panics_beyond_32 (s : BitStream) (n : Nat)
    (bo : BitOrder) (hbuf : s.buf.length = 5) (hn : 33 ≤ n) :
    s.read_bits n bo = .panicked ∧
      (∀ m, m ≤ 32 →
        ((BitStream.new (List.replicate 9 255)).read_bits m .LsbFirst).val? =
          some (2 ^ m - 1)) := by
  constructor
  · have hgt : ¬n ≤ (s.buf.length - 1) * 8 := by
      rw [hbuf]
      omega
    simp [BitStream.read_bits, BitStream.peek_bits, hgt, BRes.bind]
  · decide

/-- C5 witness: a 64-bit read panics on a 9-byte (72-bit) source even
though the source can supply the bytes, while a 32-bit read succeeds. -/
theorem c5_witness :
    (BitStream.new (List.replicate 9 0)).read_bits 64 .MsbFirst = .panicked ∧
      ((BitStream.new (List.replicate 9 255)).read_bits 32 .LsbFirst).val? =
        some (2 ^ 32 - 1) :=
  ⟨(c5_read_bits_panics_beyond_32 (BitStream.new (List.replicate 9 0)) 64
      .MsbFirst (by decide) (by decide)).1,
   (c5_read_bits_panics_beyond_32 (BitStream.new (List.replicate 9 0)) 64
      .MsbFirst (by decide) (by decide)).2 32 (by decide)⟩

/-- C9: the zlib flags parser never reports a preset dictionary: the source
computes `preset_dictionary = (b & 0x08) == 5`, which is false for every
FLG byte (the mask keeps only bit 3 and the result is compared with 5), so
bit 5 of FLG is not reflected in the flag. -/
theorem c9_preset_dictionary_always_false :
    ∀ b, b < 256 → (flags_from b).map (fun f => f.preset_dictionary) = some false := by
  decide

/-- C9 witness: FLG = 0x20 has bit 5 set, yet the parsed flag is false. -/
theorem c9_witness :
    (flags_from 32).map (fun f => f.preset_dictionary) = some false :=
  c9_preset_dictionary_always_false 32 (by decide)

/-- C8: whenever `(256*CMF + FLG) % 31 ≠ 0` the zlib `decompress` bails
with an error before reading any block header (the error carries the empty
trace of block headers) and produces no output. -/
theorem c8_header_check_fails_before_blocks (b0 b1 : Nat) (rest : List Nat)
    (h : check_cmf_flg b0 b1 = false) :
    zlib_decompress (b0 :: b1 :: rest) = .err [] := by
  simp [zlib_decompress, h]

/-- C8 witness: CMF = 0, FLG = 1 fails the checksum and is rejected with no
block header read. -/
theorem c8_witness : zlib_decompress [0, 1, 7] = .err [] :=
  c8_header_check_fails_before_blocks 0 1 [7] (by decide)

/-- The LSB-first masks of `first_n_bits` are exactly reduction mod `2^e`. -/
lemma first_n_bits_eq_mod (b e : Nat) (h : e ≤ 8) : first_n_bits b e = b % 2 ^ e := by
  interval_cases e
  · simp [first_n_bits, FIRST_N_BITS, Nat.mod_one]
  · simp [first_n_bits, FIRST_N_BITS]
  · rw [show first_n_bits b 2 = b &&& 3 from rfl,
        show (3 : Nat) = 2 ^ 2 - 1 from rfl, Nat.and_pow_two_sub_one_eq_mod]
  · rw [show first_n_bits b 3 = b &&& 7 from rfl,
        show (7 : Nat) = 2 ^ 3 - 1 from rfl, Nat.and_pow_two_sub_one_eq_mod]
  · rw [show first_n_bits b 4 = b &&& 15 from rfl,
        show (15 : Nat) = 2 ^ 4 - 1 from rfl, Nat.and_pow_two_sub_one_eq_mod]
  · rw [show first_n_bits b 5 = b &&& 31 from rfl,
        show (31 : Nat) = 2 ^ 5 - 1 from rfl, Nat.and_pow_two_sub_one_eq_mod]
  · rw [show first_n_bits b 6 = b &&& 63 from rfl,
        show (63 : Nat) = 2 ^ 6 - 1 from rfl, Nat.and_pow_two_sub_one_eq_mod]
  · rw [show first_n_bits b 7 = b &&& 127 from rfl,
        show (127 : Nat) = 2 ^ 7 - 1 from rfl, Nat.and_pow_two_sub_one_eq_mod]
  · rw [show first_n_bits b 8 = b &&& 255 from rfl,
        show (255 : Nat) = 2 ^ 8 - 1 from rfl, Nat.and_pow_two_sub_one_eq_mod]

/-- Reading `1 ≤ e ≤ 8` bits LSB-first from a fresh stream over `b :: rest`
loads one byte and returns the low `e` bits of `b`, leaving the read
position at `e`. -/
lemma read_bits_new_lsb_le8 (e b : Nat) (rest : List Nat) (h1 : 1 ≤ e)
    (h8 : e ≤ 8) :
    (BitStream.new (b :: rest)).read_bits e .LsbFirst =
      .ok (b % 2 ^ e) ⟨rest, [b, 0, 0, 0, 0], e, 1⟩ := by
  interval_cases e <;>
    simp [BitStream.read_bits, BitStream.peek_bits, BitStream.ensure_readable_bits,
      BitStream.readable_bits, BitStream.loadable_bits, BitStream.load_bytes,
      BitStream.rewind_buffer, BitStream.skip_bits, BitStream.new, BRes.bind,
      n_bits_by_index, nBitsLoop, first_n_bits_eq_mod, Nat.le_add_left]

/-- Reading zero bits consumes nothing and yields 0. -/
lemma read_bits_new_zero (inner : List Nat) (bo : BitOrder) :
    (BitStream.new inner).read_bits 0 bo = .ok 0 (BitStream.new inner) := by
  simp [BitStream.read_bits, BitStream.peek_bits, BitStream.ensure_readable_bits,
    BitStream.readable_bits, BitStream.skip_bits, BitStream.new, BRes.bind,
    n_bits_by_index, nBitsLoop]

/-- C2 counterexample: decoding length symbol 269 (2 extra bits) against
the stream byte `0b00000001` — the final decoder (`read_length`,
huffman.rs) returns `19 + 1 = 20`, reading the extra bits LSB-first, while
an MSB-first read of the same two stream bits gives 2, so the MSB-first
behaviour the claim states (realised only by the superseded draft
`read_length_draft`) would return 21 ≠ 20. -/
theorem c2_counterexample :
    (read_length (BitStream.new [1]) 269).val? = some 20 ∧
      (read_length_draft (BitStream.new [1]) 269).val? = some 21 ∧
      n_bits_by_index [1, 0, 0, 0, 0] 2 0 .MsbFirst = 2 ∧
      BASE_LENGTH.getD (269 - 257) 0 + 2 ≠ 20 := by
  decide

/-- C2 amended: for every length symbol in 257..285 the extra bits for the
length are read LSB-first — the decoded length is the base length plus the
low `extra` bits of the next stream byte — and exactly those `extra` bits
are consumed by the length read itself, immediately after the length
symbol and before any distance decoding (`read_length_and_distance` runs
`read_distance` on the stream state this returns). -/
theorem c2_length_extra_bits_lsb_first (sym : Nat) (h1 : 257 ≤ sym)
    (h2 : sym ≤ 285) (b : Nat) (rest : List Nat) :
    (read_length (BitStream.new (b :: rest)) sym).val? =
      some (BASE_LENGTH.getD (sym - 257) 0 +
        b % 2 ^ LENGTH_EXTRA_BITS.getD (sym - 257) 0) ∧
    (read_length (BitStream.new (b :: rest)) sym).pos? =
      some (LENGTH_EXTRA_BITS.getD (sym - 257) 0) := by
  have hk : sym - 257 < 29 := by omega
  have hlE : sym - 257 < LENGTH_EXTRA_BITS.length := by
    simpa [LENGTH_EXTRA_BITS] using hk
  have hlB : sym - 257 < BASE_LENGTH.length := by
    simpa [BASE_LENGTH] using hk
  have hE : LENGTH_EXTRA_BITS[sym - 257]? =
      some (LENGTH_EXTRA_BITS.getD (sym - 257) 0) := by
    rw [List.getElem?_eq_getElem hlE, List.getD_eq_getElem?_getD,
      List.getElem?_eq_getElem hlE]
    rfl
  have hB : BASE_LENGTH[sym - 257]? = some (BASE_LENGTH.getD (sym - 257) 0) := by
    rw [List.getElem?_eq_getElem hlB, List.getD_eq_getElem?_getD,
      List.getElem?_eq_getElem hlB]
    rfl
  have he8 : LENGTH_EXTRA_BITS.getD (sym - 257) 0 ≤ 8 := by
    have hall : ∀ j, j < 29 → LENGTH_EXTRA_BITS.getD j 0 ≤ 8 := by decide
    exact hall _ hk
  unfold read_length
  dsimp only
  rw [hE, hB]
  dsimp only
  cases he : LENGTH_EXTRA_BITS.getD (sym - 257) 0 with
  | zero =>
    rw [read_bits_new_zero]
    simp [BRes.bind, BRes.val?, BRes.pos?, BitStream.new, Nat.mod_one]
  | succ n =>
    rw [he] at he8
    rw [read_bits_new_lsb_le8 (n + 1) b rest (by omega) he8]
    simp [BRes.bind, BRes.val?, BRes.pos?]

/-- C2 witness: symbol 269 against stream byte 1 returns
`base + (1 mod 4) = 20`, consuming exactly 2 bits. -/
theorem c2_witness :
    (read_length (BitStream.new (1 :: [])) 269).val? =
      some (BASE_LENGTH.getD (269 - 257) 0 +
        1 % 2 ^ LENGTH_EXTRA_BITS.getD (269 - 257) 0) ∧
    (read_length (BitStream.new (1 :: [])) 269).pos? =
      some (LENGTH_EXTRA_BITS.getD (269 - 257) 0) :=
  c2_length_extra_bits_lsb_first 269 (by decide) (by decide) 1 []

/-- List `getD` below the length of the left part of an append. -/
lemma getD_append_lt (l l' : List Nat) (j : Nat) (h : j < l.length) :
    (l ++ l').getD j 0 = l.getD j 0 := by
  simp [List.getD_eq_getElem?_getD, List.getElem?_append_left h]

/-- List `getD` at or past the length of the left part of an append. -/
lemma getD_append_ge (l l' : List Nat) (j : Nat) (h : l.length ≤ j) :
    (l ++ l').getD j 0 = l'.getD (j - l.length) 0 := by
  simp [List.getD_eq_getElem?_getD, List.getElem?_append_right h]

/-- List `getD` at an offset past the left part of an append. -/
lemma getD_append_add (l l' : List Nat) (k : Nat) :
    (l ++ l').getD (l.length + k) 0 = l'.getD k 0 := by
  rw [getD_append_ge _ _ _ (Nat.le_add_right _ _), Nat.add_sub_cancel_left]

/-- One in-bounds iteration of the back-reference copy loop. -/
lemma pushCopy_succ (buf : List Nat) (idx count : Nat) (h : idx < buf.length) :
    pushCopy buf idx (count + 1) =
      pushCopy (buf ++ [buf.getD idx 0]) (idx + 1) count := by
  simp [pushCopy, h]

/-- The copy loop never rewrites bytes that already exist: positions below
the starting buffer length keep their values. -/
lemma pushCopy_stable :
    ∀ (count : Nat) (buf : List Nat) (idx : Nat) (res : List Nat),
      pushCopy buf idx count = some res →
      ∀ j, j < buf.length → res.getD j 0 = buf.getD j 0 := by
  intro count
  induction count with
  | zero =>
    intro buf idx res h j hj
    simp only [pushCopy] at h
    cases h
    rfl
  | succ n ih =>
    intro buf idx res h j hj
    by_cases hidx : idx < buf.length
    · rw [pushCopy_succ buf idx n hidx] at h
      have := ih (buf ++ [buf.getD idx 0]) (idx + 1) res h j
        (by simp only [List.length_append, List.length_cons, List.length_nil]; omega)
      rw [this, getD_append_lt _ _ _ hj]
    · simp [pushCopy, hidx] at h

/-- The copy loop's byte `i` is read from position `idx + i` of the final
buffer (the source position already holds its final value when byte `i` is
written, which is what makes overlapping copies work). -/
lemma pushCopy_copies :
    ∀ (count : Nat) (buf : List Nat) (idx : Nat) (res : List Nat),
      idx ≤ buf.length →
      pushCopy buf idx count = some res →
      ∀ i, i < count → res.getD (buf.length + i) 0 = res.getD (idx + i) 0 := by
  intro count
  induction count with
  | zero =>
    intro buf idx res _ _ i hi
    omega
  | succ n ih =>
    intro buf idx res hle h i hi
    have hidx : idx < buf.length := by
      by_contra hge
      have : ¬idx < buf.length := hge
      simp [pushCopy, this] at h
    rw [pushCopy_succ buf idx n hidx] at h
    cases i with
    | zero =>
      have hstab := pushCopy_stable n _ _ _ h
      have h1 : res.getD buf.length 0 = buf.getD idx 0 := by
        rw [hstab buf.length (by simp), getD_append_ge _ _ _ (Nat.le_refl _)]
        simp
      have h2 : res.getD idx 0 = buf.getD idx 0 := by
        rw [hstab idx (by simp only [List.length_append, List.length_cons,
              List.length_nil]; omega),
            getD_append_lt _ _ _ hidx]
      simp only [Nat.add_zero]
      rw [h1, h2]
    | succ m =>
      have := ih (buf ++ [buf.getD idx 0]) (idx + 1) res
        (by simp only [List.length_append, List.length_cons, List.length_nil]; omega)
        h m (by omega)
      have e1 : buf.length + (m + 1) = (buf ++ [buf.getD idx 0]).length + m := by
        simp only [List.length_append, List.length_cons, List.length_nil]
        omega
      have e2 : idx + (m + 1) = (idx + 1) + m := by omega
      rw [e1, e2]
      exact this

/-- The concrete overlap expansion: copying 5 bytes at distance 2 from a
buffer ending in X, Y appends X, Y, X, Y, X. -/
lemma pushCopy_xy (buf : List Nat) (X Y : Nat) :
    pushCopy (buf ++ [X, Y]) buf.length 5 = some (buf ++ [X, Y, X, Y, X, Y, X]) := by
  rw [show (5 : Nat) = 4 + 1 from rfl,
      pushCopy_succ _ _ _
        (by simp only [List.length_append, List.length_cons, List.length_nil]; omega),
      getD_append_ge buf [X, Y] buf.length (Nat.le_refl _), Nat.sub_self]
  simp only [List.append_assoc, List.cons_append, List.nil_append, List.getD_cons_zero]
  rw [show (4 : Nat) = 3 + 1 from rfl,
      pushCopy_succ _ _ _
        (by simp only [List.length_append, List.length_cons, List.length_nil]; omega),
      getD_append_add buf _ 1]
  simp only [List.append_assoc, List.cons_append, List.nil_append,
    List.getD_cons_succ, List.getD_cons_zero]
  rw [show (3 : Nat) = 2 + 1 from rfl,
      pushCopy_succ _ _ _
        (by simp only [List.length_append, List.length_cons, List.length_nil]; omega)]
  rw [show buf.length + 1 + 1 = buf.length + 2 from rfl, getD_append_add buf _ 2]
  simp only [List.append_assoc, List.cons_append, List.nil_append,
    List.getD_cons_succ, List.getD_cons_zero]
  rw [show (2 : Nat) = 1 + 1 from rfl,
      pushCopy_succ _ _ _
        (by simp only [List.length_append, List.length_cons, List.length_nil]; omega)]
  rw [show buf.length + 2 + 1 = buf.length + 3 from rfl, getD_append_add buf _ 3]
  simp only [List.append_assoc, List.cons_append, List.nil_append,
    List.getD_cons_succ, List.getD_cons_zero]
  rw [show (1 : Nat) = 0 + 1 from rfl,
      pushCopy_succ _ _ _
        (by simp only [List.length_append, List.length_cons, List.length_nil]; omega)]
  rw [show buf.length + 3 + 1 = buf.length + 4 from rfl, getD_append_add buf _ 4]
  simp [pushCopy]

/-- C3: back-reference expansion copies byte by byte through the growing
buffer.  (1) length 5 at distance 2 against a buffer ending in X, Y appends
exactly X, Y, X, Y, X; (2) a distance exceeding the current output length
fails the `assert!` (panic, no output) instead of producing bytes; (3) in a
successful expansion, appended byte `i` equals the final buffer's byte at
position `current_length - distance + i`. -/
theorem c3_back_reference_overlap :
    (∀ (buf : List Nat) (X Y : Nat),
      copy_huffman_block_step (buf ++ [X, Y]) (.LengthAndDistance 5 2) =
        some (buf ++ [X, Y, X, Y, X, Y, X], false)) ∧
    (∀ (buf : List Nat) (len dist : Nat), buf.length < dist →
      copy_huffman_block_step buf (.LengthAndDistance len dist) = none) ∧
    (∀ (buf : List Nat) (len dist : Nat) (res : List Nat), dist ≤ buf.length →
      copy_huffman_block_step buf (.LengthAndDistance len dist) = some (res, false) →
      ∀ i, i < len →
        res.getD (buf.length + i) 0 = res.getD (buf.length - dist + i) 0) := by
  refine ⟨?_, ?_, ?_⟩
  · intro buf X Y
    simp only [copy_huffman_block_step]
    rw [if_pos (by simp only [List.length_append, List.length_cons,
          List.length_nil]; omega)]
    have hcs : (buf ++ [X, Y]).length - 2 = buf.length := by
      simp only [List.length_append, List.length_cons, List.length_nil]
      omega
    rw [hcs, Nat.add_sub_cancel_left, pushCopy_xy]
    rfl
  · intro buf len dist h
    simp only [copy_huffman_block_step]
    rw [if_neg (by omega)]
  · intro buf len dist res hd h i hi
    simp only [copy_huffman_block_step] at h
    rw [if_pos hd, Nat.add_sub_cancel_left] at h
    cases hpc : pushCopy buf (buf.length - dist) len with
    | none => rw [hpc] at h; exact Option.noConfusion h
    | some r =>
      rw [hpc] at h
      simp only [Option.map_some'] at h
      cases h
      exact pushCopy_copies len buf (buf.length - dist) res (by omega) hpc i hi

/-- C3 witness: a buffer ending in 1, 2 expands (5, 2) to ...1,2,1,2,1, and
distance 3 against a 2-byte buffer panics. -/
theorem c3_witness :
    copy_huffman_block_step ([7] ++ [1, 2]) (.LengthAndDistance 5 2) =
      some ([7] ++ [1, 2, 1, 2, 1, 2, 1], false) ∧
    copy_huffman_block_step [1, 2] (.LengthAndDistance 5 3) = none :=
  ⟨c3_back_reference_overlap.1 [7] 1 2,
   c3_back_reference_overlap.2.1 [1, 2] 5 3 (by decide)⟩

/-- A successful `CopyLastLength` extract action always repeats at least 3
times (the 2 extra bits are offset by 3). -/
lemma from_bit_stream_copy_ge (s : BitStream) (cl : HuffmanAlphabet Nat)
    (t : Nat) (s' : BitStream)
    (h : ExtractAction.from_bit_stream s cl = .ok (.CopyLastLength t) s') :
    3 ≤ t := by
  unfold ExtractAction.from_bit_stream at h
  cases hr : cl.read_next s with
  | err => rw [hr] at h; exact BRes.noConfusion h
  | panicked => rw [hr] at h; exact BRes.noConfusion h
  | ok sym s1 =>
    rw [hr] at h
    simp only [BRes.bind] at h
    split_ifs at h with h15 h16 h17 h18
    · simp at h
    · cases hb : s1.read_bits 2 .LsbFirst with
      | err => rw [hb] at h; exact BRes.noConfusion h
      | panicked => rw [hb] at h; exact BRes.noConfusion h
      | ok v s2 =>
        rw [hb] at h
        simp only [BRes.bind] at h
        cases h
        omega
    · cases hb : s1.read_bits 3 .LsbFirst with
      | err => rw [hb] at h; exact BRes.noConfusion h
      | panicked => rw [hb] at h; exact BRes.noConfusion h
      | ok v s2 => rw [hb] at h; simp at h
    · cases hb : s1.read_bits 7 .LsbFirst with
      | err => rw [hb] at h; exact BRes.noConfusion h
      | panicked => rw [hb] at h; exact BRes.noConfusion h
      | ok v s2 => rw [hb] at h; simp at h

/-- A successful `RepeatZero` extract action always repeats at least 3
times (symbol 17 offsets 3 extra bits by 3, symbol 18 offsets 7 by 11). -/
lemma from_bit_stream_repeat_ge (s : BitStream) (cl : HuffmanAlphabet Nat)
    (t : Nat) (s' : BitStream)
    (h : ExtractAction.from_bit_stream s cl = .ok (.RepeatZero t) s') :
    3 ≤ t := by
  unfold ExtractAction.from_bit_stream at h
  cases hr : cl.read_next s with
  | err => rw [hr] at h; exact BRes.noConfusion h
  | panicked => rw [hr] at h; exact BRes.noConfusion h
  | ok sym s1 =>
    rw [hr] at h
    simp only [BRes.bind] at h
    split_ifs at h with h15 h16 h17 h18
    · simp at h
    · cases hb : s1.read_bits 2 .LsbFirst with
      | err => rw [hb] at h; exact BRes.noConfusion h
      | panicked => rw [hb] at h; exact BRes.noConfusion h
      | ok v s2 => rw [hb] at h; simp at h
    · cases hb : s1.read_bits 3 .LsbFirst with
      | err => rw [hb] at h; exact BRes.noConfusion h
      | panicked => rw [hb] at h; exact BRes.noConfusion h
      | ok v s2 =>
        rw [hb] at h
        simp only [BRes.bind] at h
        cases h
        omega
    · cases hb : s1.read_bits 7 .LsbFirst with
      | err => rw [hb] at h; exact BRes.noConfusion h
      | panicked => rw [hb] at h; exact BRes.noConfusion h
      | ok v s2 =>
        rw [hb] at h
        simp only [BRes.bind] at h
        cases h
        omega

/-- The final `from_code_lengths` step never reports fuel exhaustion. -/
lemma extractFinish_ne (lengths : List (Nat × Nat)) (s : BitStream) :
    extractFinish lengths s ≠ .fuelOut := by
  unfold extractFinish
  cases from_code_lengths lengths <;> simp

/-- Fuel sufficiency for the extraction loop: with at least
`alphabet_size - cl_symbol` iterations of budget the loop never runs out,
because every successful iteration advances `cl_symbol` by at least 1 (a
literal length adds exactly 1, repeat actions add at least 3). -/
lemma extractLoop_no_fuelOut :
    ∀ (fuel : Nat) (cl : HuffmanAlphabet Nat) (size : Nat) (s : BitStream)
      (lengths : List (Nat × Nat)) (clSym : Nat), size ≤ clSym + fuel →
      extractLoop cl size fuel s lengths clSym ≠ .fuelOut := by
  intro fuel
  induction fuel with
  | zero =>
    intro cl size s lengths clSym hle
    simp only [extractLoop]
    rw [if_pos (by omega)]
    exact extractFinish_ne lengths s
  | succ n ih =>
    intro cl size s lengths clSym hle
    simp only [extractLoop]
    by_cases hsz : size ≤ clSym
    · rw [if_pos hsz]
      exact extractFinish_ne lengths s
    · rw [if_neg hsz]
      unfold extractStep
      cases hfb : ExtractAction.from_bit_stream s cl with
      | err => simp
      | panicked => simp
      | ok act s' =>
        dsimp only
        cases act with
        | CodeLength len =>
          dsimp only
          exact ih cl size s' (lengths ++ [(clSym, len)]) (clSym + 1) (by omega)
        | CopyLastLength t =>
          dsimp only
          have ht := from_bit_stream_copy_ge s cl t s' hfb
          cases hc : copy_last_length t lengths clSym with
          | none => simp
          | some p =>
            obtain ⟨l', c'⟩ := p
            dsimp only
            have hc' : c' = clSym + t := by
              unfold copy_last_length at hc
              cases hgl : lengths.getLast? with
              | none => rw [hgl] at hc; exact Option.noConfusion hc
              | some q =>
                rw [hgl] at hc
                obtain ⟨qs, ql⟩ := q
                simp only [Option.some.injEq, Prod.mk.injEq] at hc
                exact hc.2.symm
            subst hc'
            exact ih cl size s' l' (clSym + t) (by omega)
        | RepeatZero t =>
          dsimp only [repeat_zero]
          have ht := from_bit_stream_repeat_ge s cl t s' hfb
          exact ih cl size s' _ (clSym + t) (by omega)

/-- C7: the dynamic-Huffman code-length extraction terminates on every
input by the alphabet-size loop condition alone: (1)–(2) every successful
iteration advances the symbol counter — a literal length by exactly 1, a
copy or zero-repeat action by its repeat count, which is at least 3 — and
(3) running `extract_alphabet` with an iteration budget equal to the
declared alphabet size (at most 286 for any DEFLATE call site, so the
source's `u16` counter cannot overflow) never exhausts that budget: the
loop reaches `cl_symbol ≥ alphabet_size`, an error, or a panic within
`alphabet_size` iterations, with no external timeout involved. -/
theorem c7_extract_alphabet_terminates :
    (∀ (s : BitStream) (cl : HuffmanAlphabet Nat) (len : Nat) (s' : BitStream),
      ExtractAction.from_bit_stream s cl = .ok (.CodeLength len) s' →
        (ExtractAction.CodeLength len).adds = 1) ∧
    (∀ (s : BitStream) (cl : HuffmanAlphabet Nat) (t : Nat) (s' : BitStream)
      (act : ExtractAction),
      ExtractAction.from_bit_stream s cl = .ok act s' →
      (act = .CopyLastLength t ∨ act = .RepeatZero t) → 3 ≤ act.adds) ∧
    (∀ (s : BitStream) (size : Nat) (cl : HuffmanAlphabet Nat), size ≤ 286 →
      extract_alphabet s size cl ≠ .fuelOut) := by
  refine ⟨?_, ?_, ?_⟩
  · intro s cl len s' _
    rfl
  · intro s cl t s' act hok hcase
    cases hcase with
    | inl h =>
      subst h
      exact from_bit_stream_copy_ge s cl t s' hok
    | inr h =>
      subst h
      exact from_bit_stream_repeat_ge s cl t s' hok
  · intro s size cl _
    exact extractLoop_no_fuelOut size cl size s [] 0 (by omega)

/-- C7 witness: concrete instances — a decoded literal length (symbol 7
from a one-symbol alphabet) adds exactly 1, a decoded zero-repeat (symbol
17 with extra bits 2) adds 5 ≥ 3, and a declared size of 19 over the
code-length alphabet for lengths `{0:1, 1:1}` finishes without exhausting
the fuel budget. -/
theorem c7_witness :
    (ExtractAction.CodeLength 7).adds = 1 ∧
    3 ≤ (ExtractAction.RepeatZero 5).adds ∧
    extract_alphabet (BitStream.new []) 19
        ((from_code_lengths [(0, 1), (1, 1)]).getD ⟨[], [], 0, 0⟩) ≠
      .fuelOut :=
  ⟨c7_extract_alphabet_terminates.1 (BitStream.new [0])
      ((from_code_lengths [((7 : Nat), 1)]).getD ⟨[], [], 0, 0⟩) 7
      ⟨[], [0, 0, 0, 0, 0], 1, 1⟩ (by decide),
   c7_extract_alphabet_terminates.2.1 (BitStream.new [4])
      ((from_code_lengths [((17 : Nat), 1)]).getD ⟨[], [], 0, 0⟩) 5
      ⟨[], [4, 0, 0, 0, 0], 4, 1⟩ (.RepeatZero 5) (by decide) (Or.inr rfl),
   c7_extract_alphabet_terminates.2.2 (BitStream.new []) 19
     ((from_code_lengths [(0, 1), (1, 1)]).getD ⟨[], [], 0, 0⟩) (by decide)⟩

/-- C4: the filter-type-0 (None) scanline is NOT copied through
unchanged: the catch-all branch writes `&scanline[1..]`, dropping the first
filtered byte, so for a 3-byte scanline with filtered bytes 1, 2, 3 the
reconstructed row is [2, 3, 0] (the last byte keeps the buffer's initial
0), not [1, 2, 3] as the claim states. -/
theorem c4_none_filter_drops_first_byte :
    apply_filters 1 3 [0, 1, 2, 3] [0, 0, 0] = some [2, 3, 0] ∧
      some [2, 3, 0] ≠ some [1, 2, 3] := by
  decide

/-- Modelled from the spec's words for the Paeth choice: the first
candidate among left, up, up-left whose distance from the predictor
`p = left + up - up_left` attains the minimum of the three distances. -/
def spec_paeth (a b c : Nat) : Nat :=
  let p : Int := (a : Int) + (b : Int) - (c : Int)
  let pa := (p - (a : Int)).natAbs
  let pb := (p - (b : Int)).natAbs
  let pc := (p - (c : Int)).natAbs
  let m := min pa (min pb pc)
  if pa = m then a else if pb = m then b else c

/-- The source's `if` chain in `paeth_predictor` computes exactly the
spec's tie-broken argmin. -/
lemma paeth_predictor_eq_spec (a b c : Nat) :
    paeth_predictor a b c = spec_paeth a b c := by
  unfold paeth_predictor spec_paeth
  dsimp only
  set pa := (((a : Int) + b - c) - a).natAbs with hpa
  set pb := (((a : Int) + b - c) - b).natAbs with hpb
  set pc := (((a : Int) + b - c) - c).natAbs with hpc
  split_ifs <;> omega

/-- Setting one position leaves the others unchanged. -/
lemma getD_set_ne (l : List Nat) (i j v : Nat) (h : i ≠ j) :
    (l.set i v).getD j 0 = l.getD j 0 := by
  simp [List.getD_eq_getElem?_getD, List.getElem?_set_ne h]

/-- Reading back an in-bounds set position. -/
lemma getD_set_self (l : List Nat) (i v : Nat) (h : i < l.length) :
    (l.set i v).getD i 0 = v := by
  simp [List.getD_eq_getElem?_getD, List.getElem?_set_self h]

/-- The Paeth scanline loop writes only positions
`[sl*si + k, sl*si + k + rest.length)`: everything else is untouched. -/
lemma paeth_line_frame (bpp sl si : Nat) :
    ∀ (rest : List Nat) (k : Nat) (image : List Nat) (j : Nat),
      (j < sl * si + k ∨ sl * si + k + rest.length ≤ j) →
      (paeth_line bpp sl si rest k image).getD j 0 = image.getD j 0 := by
  intro rest
  induction rest with
  | nil =>
    intro k image j _
    rfl
  | cons byte rest ih =>
    intro k image j hj
    simp only [paeth_line]
    rw [ih (k + 1) _ j
      (by simp only [List.length_cons] at hj; omega)]
    rw [getD_set_ne _ _ _ _
      (by simp only [List.length_cons] at hj; omega)]
/-- Reading, after the rest of the loop, a position strictly left of the
next write: it still holds the pre-iteration value. -/
lemma frame_set_read (bpp sl si : Nat) (rest : List Nat) (k : Nat)
    (image : List Nat) (idx pos v : Nat)
    (h1 : pos < sl * si + (k + 1)) (h2 : idx ≠ pos) :
    (paeth_line bpp sl si rest (k + 1) (image.set idx v)).getD pos 0 =
      image.getD pos 0 := by
  rw [paeth_line_frame bpp sl si rest (k + 1) _ pos (Or.inl h1),
    getD_set_ne _ _ _ _ h2]

/-- Invariant of the Paeth scanline loop: each reconstructed byte is the
filtered byte plus the predictor chosen from the reconstructed left/up/
up-left neighbours (0 out of range), wrapping at 256. -/
lemma paeth_line_correct (bpp sl si : Nat) (hbpp : 0 < bpp) :
    ∀ (rest : List Nat) (k : Nat) (image : List Nat),
      sl * si + k + rest.length ≤ image.length →
      k + rest.length ≤ sl →
      ∀ i, i < rest.length →
        (paeth_line bpp sl si rest k image).getD (sl * si + (k + i)) 0 =
          ((rest.getD i 0) +
            paeth_predictor
              (if bpp ≤ k + i then
                 (paeth_line bpp sl si rest k image).getD (sl * si + (k + i) - bpp) 0
               else 0)
              (if si = 0 then 0 else
                 (paeth_line bpp sl si rest k image).getD (sl * (si - 1) + (k + i)) 0)
              (if si = 0 ∨ k + i < bpp then 0 else
                 (paeth_line bpp sl si rest k image).getD
                   (sl * (si - 1) + (k + i) - bpp) 0)) % 256 := by
  intro rest
  induction rest with
  | nil =>
    intro k image _ _ i hi
    simp at hi
  | cons byte rest ih =>
    intro k image hlen hsl i hi
    simp only [paeth_line]
    cases i with
    | zero =>
      simp only [Nat.add_zero, List.getD_cons_zero]
      have hsl1 : 1 ≤ sl := by
        simp only [List.length_cons] at hsl
        omega
      have hlen1 : sl * si + k < image.length := by
        simp only [List.length_cons] at hlen
        omega
      set v := (byte + paeth_predictor
          (raw_fn image sl si ((k : Int) - (bpp : Int)))
          (prior_fn image sl si (k : Int))
          (prior_fn image sl si ((k : Int) - (bpp : Int)))) % 256 with hv
      rw [paeth_line_frame bpp sl si rest (k + 1) _ (sl * si + k)
            (Or.inl (by omega)),
          getD_set_self _ _ _ hlen1]
      rw [hv]
      by_cases hsi : si = 0
      · subst hsi
        rw [if_pos rfl, if_pos (Or.inl rfl)]
        by_cases hkb : bpp ≤ k
        · rw [if_pos hkb,
              frame_set_read bpp sl 0 rest k image (sl * 0 + k) (sl * 0 + k - bpp) _
                (by omega) (by omega)]
          simp only [raw_fn, prior_fn]
          rw [if_neg (show ¬((k : Int) - (bpp : Int) < 0) by omega)]
          simp only [true_or, if_true]
          rw [show ((k : Int) - (bpp : Int)).toNat = k - bpp by omega]
          rw [show sl * 0 + (k - bpp) = sl * 0 + k - bpp by omega]
        · rw [if_neg hkb]
          simp only [raw_fn, prior_fn]
          rw [if_pos (show ((k : Int) - (bpp : Int) < 0) by omega)]
          simp only [true_or, if_true]
      · obtain ⟨s, rfl⟩ : ∃ s, si = s + 1 := ⟨si - 1, by omega⟩
        rw [if_neg hsi]
        simp only [Nat.add_sub_cancel]
        have hms : sl * (s + 1) = sl * s + sl := Nat.mul_succ sl s
        by_cases hkb : bpp ≤ k
        · rw [if_pos hkb, if_neg (show ¬(s + 1 = 0 ∨ k < bpp) by omega)]
          rw [frame_set_read bpp sl (s + 1) rest k image (sl * (s + 1) + k)
                (sl * (s + 1) + k - bpp) _ (by omega) (by omega)]
          rw [frame_set_read bpp sl (s + 1) rest k image (sl * (s + 1) + k)
                (sl * s + k) _ (by omega) (by omega)]
          rw [frame_set_read bpp sl (s + 1) rest k image (sl * (s + 1) + k)
                (sl * s + k - bpp) _ (by omega) (by omega)]
          simp only [raw_fn, prior_fn]
          rw [if_neg (show ¬((k : Int) - (bpp : Int) < 0) by omega)]
          rw [if_neg (show ¬(s + 1 = 0 ∨ ((k : Int) < 0)) by omega)]
          rw [if_neg (show ¬(s + 1 = 0 ∨ ((k : Int) - (bpp : Int) < 0)) by omega)]
          simp only [Nat.add_sub_cancel]
          rw [show ((k : Int) - (bpp : Int)).toNat = k - bpp by omega]
          rw [show ((k : Int)).toNat = k by omega]
          rw [show sl * (s + 1) + (k - bpp) = sl * (s + 1) + k - bpp by omega]
          rw [show sl * s + (k - bpp) = sl * s + k - bpp by omega]
        · rw [if_neg hkb, if_pos (Or.inr (show k < bpp by omega))]
          rw [frame_set_read bpp sl (s + 1) rest k image (sl * (s + 1) + k)
                (sl * s + k) _ (by omega) (by omega)]
          simp only [raw_fn, prior_fn]
          rw [if_pos (show ((k : Int) - (bpp : Int) < 0) by omega)]
          rw [if_neg (show ¬(s + 1 = 0 ∨ ((k : Int) < 0)) by omega)]
          rw [if_pos (show (s + 1 = 0 ∨ ((k : Int) - (bpp : Int) < 0)) from
                Or.inr (by omega))]
          simp only [Nat.add_sub_cancel]
          rw [show ((k : Int)).toNat = k by omega]
    | succ m =>
      simp only [List.getD_cons_succ]
      have hidx : k + 1 + m = k + (m + 1) := by omega
      have := ih (k + 1) (image.set (sl * si + k)
          ((byte + paeth_predictor
            (raw_fn image sl si ((k : Int) - (bpp : Int)))
            (prior_fn image sl si (k : Int))
            (prior_fn image sl si ((k : Int) - (bpp : Int)))) % 256))
        (by simp only [List.length_set, List.length_cons] at hlen ⊢; omega)
        (by simp only [List.length_cons] at hsl; omega)
        m (by simp only [List.length_cons] at hi; omega)
      rw [hidx] at this
      exact this
/-- C6: Paeth filter reversal.  (1) For every scanline: the reconstructed
byte at x is the filtered byte plus — modulo 256 — the candidate among
left = recon[x-bpp], up = prior row's recon[x], up_left = prior row's
recon[x-bpp] (each 0 when out of range) that minimises the distance to the
predictor p = left + up - up_left, ties broken left, up, up_left (the
spec-side `spec_paeth`, proved equal to the source's `paeth_predictor`).
(2) `apply_filters` dispatches filter byte 4 to exactly this loop. -/
theorem c6_paeth_filter_reversal :
    (∀ (bpp sl si : Nat) (filt image : List Nat), 0 < bpp →
      sl * si + filt.length ≤ image.length → filt.length ≤ sl →
      ∀ x, x < filt.length →
        (paeth_line bpp sl si filt 0 image).getD (sl * si + x) 0 =
          ((filt.getD x 0) +
            spec_paeth
              (if bpp ≤ x then
                 (paeth_line bpp sl si filt 0 image).getD (sl * si + x - bpp) 0
               else 0)
              (if si = 0 then 0 else
                 (paeth_line bpp sl si filt 0 image).getD (sl * (si - 1) + x) 0)
              (if si = 0 ∨ x < bpp then 0 else
                 (paeth_line bpp sl si filt 0 image).getD
                   (sl * (si - 1) + x - bpp) 0)) % 256) ∧
    (∀ (bpp sl si : Nat) (filt image : List Nat),
      apply_filters_scanline bpp sl si (4 :: filt) image =
        some (paeth_line bpp sl si filt 0 image)) := by
  constructor
  · intro bpp sl si filt image hbpp hlen hsl x hx
    have h := paeth_line_correct bpp sl si hbpp filt 0 image (by omega) (by omega) x hx
    simp only [Nat.zero_add] at h
    rw [h, paeth_predictor_eq_spec]
  · intro bpp sl si filt image
    rfl

/-- C6 witness: bpp 1, scanline [5, 6] at row 1 over prior row [10, 20]
satisfies the recurrence at x = 1. -/
theorem c6_witness :
    (paeth_line 1 2 1 [5, 6] 0 [10, 20, 0, 0]).getD (2 * 1 + 1) 0 =
      (([5, 6].getD 1 0) +
        spec_paeth
          (if 1 ≤ 1 then
             (paeth_line 1 2 1 [5, 6] 0 [10, 20, 0, 0]).getD (2 * 1 + 1 - 1) 0
           else 0)
          (if (1 : Nat) = 0 then 0 else
             (paeth_line 1 2 1 [5, 6] 0 [10, 20, 0, 0]).getD (2 * (1 - 1) + 1) 0)
          (if (1 : Nat) = 0 ∨ 1 < 1 then 0 else
             (paeth_line 1 2 1 [5, 6] 0 [10, 20, 0, 0]).getD
               (2 * (1 - 1) + 1 - 1) 0)) % 256 :=
  c6_paeth_filter_reversal.1 1 2 1 [5, 6] [10, 20, 0, 0] (by decide) (by decide)
    (by decide) 1 (by decide)

end Vekotin
